import Mathlib

/-!
A shallow embedding of the game engine of `src/gitana.py`
(Vanishing Tic-Tac-Toe), together with proofs about it.

The engine is the group of functions `reset_game`, `check_winner`,
`is_board_full` and `make_move`, operating on the Streamlit session
state (board, move_history, current_player, game_over, winner,
vanish_after).  Pure Python data is modelled directly; the session
state becomes an explicit `GameState` value threaded through the
operations.  Python list indexing is modelled exactly: a negative
index within range wraps around, and an index out of `[-len, len)`
raises `IndexError`, which we model as the `none` result of an
`Option`-valued operation.  `time.time()` is modelled as a timestamp
argument supplied by the caller.
-/

namespace VTTT

/-- A player's mark: the Python strings `'X'` and `'O'`. -/
inductive Mark where
  | X : Mark
  | O : Mark
deriving DecidableEq, Repr

/-- A value of `st.session_state.winner` other than `None`:
`'X'`, `'O'` or `"Tie"`. -/
inductive Winner where
  | mark : Mark → Winner
  | tie : Winner
deriving DecidableEq, Repr

/-- A board cell: the Python strings `''` (here `none`), `'X'`, `'O'`. -/
abbrev Cell := Option Mark

/-- The board: a Python list of lists of cells (3×3 whenever the
program builds one). -/
abbrev Board := List (List Cell)

/-- A move-history entry: the tuple `(row, col, player, time.time())`
appended on line 62; the timestamp is modelled as a natural number. -/
abbrev Move := Int × Int × Mark × Nat

/-- Row component of a history entry. -/
def mrow (m : Move) : Int := m.1

/-- Column component of a history entry. -/
def mcol (m : Move) : Int := m.2.1

/-- Player component of a history entry. -/
def mplayer (m : Move) : Mark := m.2.2.1

/-- The session state initialised on lines 6-17 of `gitana.py`. -/
structure GameState where
  board : Board
  move_history : List Move
  current_player : Mark
  game_over : Bool
  winner : Option Winner
  vanish_after : Nat
deriving DecidableEq, Repr

/-- Python list indexing: for a list of length `n` the valid indices are
`-n ≤ i < n`, a negative `i` meaning `i + n`; any other index raises
`IndexError` (`none`). -/
def pyIdx (n : Nat) (i : Int) : Option Nat :=
  if 0 ≤ i ∧ i < (n : Int) then some i.toNat
  else if -(n : Int) ≤ i ∧ i < 0 then some (i + n).toNat
  else none

/-- Python `l[i]` (read); `none` models a raised `IndexError`. -/
def pyGet {α : Type} (l : List α) (i : Int) : Option α :=
  (pyIdx l.length i).bind fun k => l[k]?

/-- Python `l[i] = a` (write); `none` models a raised `IndexError`. -/
def pySet {α : Type} (l : List α) (i : Int) (a : α) : Option (List α) :=
  (pyIdx l.length i).map fun k => l.set k a

/-- Python `board[r][c]` (read). -/
def getCell (b : Board) (r c : Int) : Option Cell :=
  (pyGet b r).bind fun row => pyGet row c

/-- Python `board[r][c] = v`: fetch row `r`, update it at `c`, put the
updated row back (the functional rendering of the in-place row update). -/
def setCell (b : Board) (r c : Int) (v : Cell) : Option Board :=
  (pyIdx b.length r).bind fun i =>
    (b[i]?).bind fun row =>
      (pySet row c v).map fun row2 => b.set i row2

/-- Total read of the cell at non-negative coordinates `(i, j)`;
out-of-range reads give `none` (empty).  The program only ever builds
3×3 boards, where this agrees with `getCell` on in-range indices. -/
def cellN (b : Board) (i j : Nat) : Cell :=
  ((b[i]?).bind fun row => row[j]?).join

/-- The initial session state (lines 6-17): empty 3×3 board, empty
history, player `X`, game not over, no winner, `vanish_after = 3`. -/
def initial_state : GameState :=
  { board := List.replicate 3 (List.replicate 3 none)
    move_history := []
    current_player := Mark.X
    game_over := false
    winner := none
    vanish_after := 3 }

/-- `reset_game` (lines 19-25): resets board, history, player, game_over
and winner; `vanish_after` is left as it was. -/
def reset_game (s : GameState) : GameState :=
  { board := List.replicate 3 (List.replicate 3 none)
    move_history := []
    current_player := Mark.X
    game_over := false
    winner := none
    vanish_after := s.vanish_after }

/-- `newGame(vanishLimit)` of the spec: the shell stores the chosen limit
in `vanish_after` and calls `reset_game` (lines 115-118). -/
def new_game (limit : Nat) (s : GameState) : GameState :=
  reset_game { s with vanish_after := limit }

/-- Python's chained comparison `a == b == c != ''` on three cells; when
it holds the source returns the first cell of the line, which equals `c`. -/
def same3 (a b c : Cell) : Option Mark :=
  if a = b ∧ b = c then c else none

/-- `check_winner` (lines 27-45): rows 0-2, then columns 0-2, then the
main and the anti diagonal, returning the first complete line's mark. -/
def check_winner (b : Board) : Option Mark :=
  same3 (cellN b 0 0) (cellN b 0 1) (cellN b 0 2) <|>
  same3 (cellN b 1 0) (cellN b 1 1) (cellN b 1 2) <|>
  same3 (cellN b 2 0) (cellN b 2 1) (cellN b 2 2) <|>
  same3 (cellN b 0 0) (cellN b 1 0) (cellN b 2 0) <|>
  same3 (cellN b 0 1) (cellN b 1 1) (cellN b 2 1) <|>
  same3 (cellN b 0 2) (cellN b 1 2) (cellN b 2 2) <|>
  same3 (cellN b 0 0) (cellN b 1 1) (cellN b 2 2) <|>
  same3 (cellN b 0 2) (cellN b 1 1) (cellN b 2 0)

/-- `is_board_full` (lines 47-53): `True` iff no cell is `''`. -/
def is_board_full (b : Board) : Bool :=
  b.all fun row => row.all fun cl => cl.isSome

/-- Line 81: `'O' if st.session_state.current_player == 'X' else 'X'`. -/
def other : Mark → Mark
  | Mark.X => Mark.O
  | Mark.O => Mark.X

/-- Lines 64-69: when the history has grown beyond `vanish_after * 2`,
pop the oldest move (index 0) and clear its board cell.  The `none`
results model the `IndexError` that `board[old_row][old_col] = ''`
would raise on an invalid stored index (never on a reachable state). -/
def vanish (limit : Nat) (b : Board) (h : List Move) :
    Option (Board × List Move) :=
  if h.length > limit * 2 then
    match h with
    | [] => none
    | m :: rest => (setCell b (mrow m) (mcol m) none).map fun b2 => (b2, rest)
  else some (b, h)

/-- Lines 71-81: winner check on the post-eviction board, then tie check,
otherwise switch the current player. -/
def finish (s : GameState) (b2 : Board) (h2 : List Move) : GameState :=
  match check_winner b2 with
  | some w =>
      { s with board := b2, move_history := h2
               winner := some (Winner.mark w), game_over := true }
  | none =>
      if is_board_full b2 then
        { s with board := b2, move_history := h2
                 winner := some Winner.tie, game_over := true }
      else
        { s with board := b2, move_history := h2
                 current_player := other s.current_player }

/-- `make_move(row, col)` (lines 55-81).  `t` is the value `time.time()`
returns during this call.  The result `none` models an uncaught
`IndexError`.  The Python `or` on line 57 short-circuits, so when the
game is over the indices are never examined. -/
def make_move (s : GameState) (r c : Int) (t : Nat) : Option GameState :=
  if s.game_over then some s
  else
    match getCell s.board r c with
    | none => none
    | some cl =>
      if cl.isSome then some s
      else
        (setCell s.board r c (some s.current_player)).bind fun b1 =>
          (vanish s.vanish_after b1
              (s.move_history ++ [(r, c, s.current_player, t)])).map fun p =>
            finish s p.1 p.2

/-- The derived game status, as the UI reads it (lines 128-134). -/
inductive Status where
  | inProgress : Status
  | won : Mark → Status
  | tied : Status
deriving DecidableEq, Repr

/-- Status derived from `game_over` and `winner`. -/
def status (s : GameState) : Status :=
  if s.game_over then
    match s.winner with
    | some (Winner.mark m) => Status.won m
    | _ => Status.tied
  else Status.inProgress

/-- Number of non-empty cells of a board. -/
def occupied (b : Board) : Nat :=
  (b.map fun row => row.countP fun cl => cl.isSome).sum

/-- A well-formed 3×3 board. -/
def shape3 (b : Board) : Prop :=
  b.length = 3 ∧ ∀ row ∈ b, row.length = 3

instance (b : Board) : Decidable (shape3 b) :=
  inferInstanceAs (Decidable (b.length = 3 ∧ ∀ row ∈ b, row.length = 3))

/-- The wrapped coordinates a history entry's `(row, col)` refer to. -/
def coords (m : Move) : Option Nat × Option Nat :=
  (pyIdx 3 (mrow m), pyIdx 3 (mcol m))

/-- States reachable from `newGame(limit)` by `make_move` calls that did
not raise. -/
inductive Reachable (limit : Nat) : GameState → Prop where
  | base (s : GameState) : Reachable limit (new_game limit s)
  | step (s s2 : GameState) (r c : Int) (t : Nat) :
      Reachable limit s → make_move s r c t = some s2 → Reachable limit s2

/-- The 8 winning lines in the order the spec fixes: row0, row1, row2,
col0, col1, col2, main diagonal, anti-diagonal. -/
def winning_lines : List ((Nat × Nat) × (Nat × Nat) × (Nat × Nat)) :=
  [((0,0),(0,1),(0,2)), ((1,0),(1,1),(1,2)), ((2,0),(2,1),(2,2)),
   ((0,0),(1,0),(2,0)), ((0,1),(1,1),(2,1)), ((0,2),(1,2),(2,2)),
   ((0,0),(1,1),(2,2)), ((0,2),(1,1),(2,0))]

/-- The spec's wording: a line wins iff its three cells are non-empty
and identical. -/
def line_mark (b : Board) (l : (Nat × Nat) × (Nat × Nat) × (Nat × Nat)) :
    Option Mark :=
  match cellN b l.1.1 l.1.2, cellN b l.2.1.1 l.2.1.2,
        cellN b l.2.2.1 l.2.2.2 with
  | some x, some y, some z => if x = y ∧ y = z then some x else none
  | _, _, _ => none

/-- The spec's description of `checkWinner`: the first match over the 8
fixed lines in the fixed order. -/
def check_winner_spec (b : Board) : Option Mark :=
  winning_lines.findSome? (line_mark b)

/-- The board after writing `v` at non-negative coordinates `(i, j)`
known to be in range. -/
def bset (b : Board) (i j : Nat) (v : Cell) : Board :=
  match b[i]? with
  | some row => b.set i (row.set j v)
  | none => b

/-! ### Concrete runs used to exercise the theorems -/

/-- A limit-2 game: X(0,0), O(1,1), X(0,1), O(1,0), then X(2,2), whose
fifth move triggers the first eviction. -/
def wA0 : GameState := new_game 2 initial_state

/-- After X plays (0,0). -/
def wA1 : GameState := (make_move wA0 0 0 1).getD wA0

/-- After O plays (1,1). -/
def wA2 : GameState := (make_move wA1 1 1 2).getD wA0

/-- After X plays (0,1). -/
def wA3 : GameState := (make_move wA2 0 1 3).getD wA0

/-- After O plays (1,0); the history now holds 4 = 2 × 2 moves. -/
def wA4 : GameState := (make_move wA3 1 0 4).getD wA0

/-- After X plays (2,2); the oldest move (0,0) is evicted. -/
def wA5 : GameState := (make_move wA4 2 2 5).getD wA0


/-- A limit-3 game: X(0,0), O(1,1), X(0,1), O(1,0), then X(0,2) wins the
top row on the fifth move (the spec's Scenario A). -/
def wB0 : GameState := new_game 3 initial_state

/-- After X plays (0,0). -/
def wB1 : GameState := (make_move wB0 0 0 1).getD wB0

/-- After O plays (1,1). -/
def wB2 : GameState := (make_move wB1 1 1 2).getD wB0

/-- After X plays (0,1). -/
def wB3 : GameState := (make_move wB2 0 1 3).getD wB0

/-- After O plays (1,0). -/
def wB4 : GameState := (make_move wB3 1 0 4).getD wB0

/-- After X plays (0,2): top row complete, X wins. -/
def wB5 : GameState := (make_move wB4 0 2 5).getD wB0

/-- A limit-5 position one move away from a drawn full board. -/
def wC0 : GameState :=
  { board := [[some Mark.X, some Mark.X, some Mark.O],
              [some Mark.O, some Mark.O, some Mark.X],
              [some Mark.X, some Mark.O, none]]
    move_history := []
    current_player := Mark.X
    game_over := false
    winner := none
    vanish_after := 5 }

/-- After X fills (2,2): full board, no winner. -/
def wC1 : GameState := (make_move wC0 2 2 1).getD wC0

/-! ### Basic lemmas about the Python-indexing model -/

theorem pyIdx_lt {n : Nat} {i : Int} {k : Nat} (h : pyIdx n i = some k) :
    k < n := by
  unfold pyIdx at h
  split at h
  · rename_i h1
    simp only [Option.some.injEq] at h
    omega
  · split at h
    · rename_i h1 h2
      simp only [Option.some.injEq] at h
      omega
    · exact absurd h (by simp)

theorem pyIdx_of_nonneg {n : Nat} {i : Int} (h0 : 0 ≤ i) (h1 : i < (n : Int)) :
    pyIdx n i = some i.toNat := by
  unfold pyIdx
  rw [if_pos ⟨h0, h1⟩]

theorem pyIdx_of_neg {n : Nat} {i : Int} (h0 : -(n : Int) ≤ i) (h1 : i < 0) :
    pyIdx n i = some (i + n).toNat := by
  unfold pyIdx
  rw [if_neg (by omega), if_pos ⟨h0, h1⟩]

theorem cellN_of_lt {b : Board} {i j : Nat} (hib : i < b.length)
    (hjb : j < b[i].length) : cellN b i j = b[i][j] := by
  simp [cellN, List.getElem?_eq_getElem hib, List.getElem?_eq_getElem hjb]

theorem getCell_eq {b : Board} (hs : shape3 b) {r c : Int} {i j : Nat}
    (hi : pyIdx 3 r = some i) (hj : pyIdx 3 c = some j) :
    getCell b r c = some (cellN b i j) := by
  obtain ⟨hlen, hrow⟩ := hs
  have hi3 : i < 3 := pyIdx_lt hi
  have hj3 : j < 3 := pyIdx_lt hj
  have hib : i < b.length := by omega
  have hrl : b[i].length = 3 := hrow _ (List.getElem_mem hib)
  have hjb : j < b[i].length := by omega
  simp [getCell, pyGet, hlen, hi, List.getElem?_eq_getElem hib, hrl, hj,
        List.getElem?_eq_getElem hjb, cellN_of_lt hib hjb]

theorem getCell_none {b : Board} (hs : shape3 b) {r c : Int}
    (h : pyIdx 3 r = none ∨ pyIdx 3 c = none) : getCell b r c = none := by
  obtain ⟨hlen, hrow⟩ := hs
  rcases h with h | h
  · simp [getCell, pyGet, hlen, h]
  · rcases hr : pyIdx 3 r with _ | i
    · simp [getCell, pyGet, hlen, hr]
    · have hi3 : i < 3 := pyIdx_lt hr
      have hib : i < b.length := by omega
      have hrl : b[i].length = 3 := hrow _ (List.getElem_mem hib)
      simp [getCell, pyGet, hlen, hr, List.getElem?_eq_getElem hib, hrl, h]

theorem setCell_eq {b : Board} (hs : shape3 b) {r c : Int} {i j : Nat}
    (hi : pyIdx 3 r = some i) (hj : pyIdx 3 c = some j) (v : Cell) :
    setCell b r c v = some (bset b i j v) := by
  obtain ⟨hlen, hrow⟩ := hs
  have hi3 : i < 3 := pyIdx_lt hi
  have hib : i < b.length := by omega
  have hrl : b[i].length = 3 := hrow _ (List.getElem_mem hib)
  simp [setCell, pySet, bset, hlen, hi, List.getElem?_eq_getElem hib, hrl, hj]

theorem shape3_bset {b : Board} (hs : shape3 b) (i j : Nat) (v : Cell) :
    shape3 (bset b i j v) := by
  obtain ⟨hlen, hrow⟩ := hs
  unfold bset
  rcases hb : b[i]? with _ | row
  · exact ⟨hlen, hrow⟩
  · refine ⟨by simp [hlen], ?_⟩
    intro row2 hrow2
    rcases List.mem_or_eq_of_mem_set hrow2 with h | h
    · exact hrow _ h
    · have : row ∈ b := by
        rcases List.getElem?_eq_some.mp hb with ⟨hlt, hval⟩
        exact hval ▸ List.getElem_mem hlt
      simp [h, hrow _ this]

theorem cellN_bset_self {b : Board} (hs : shape3 b) {i j : Nat}
    (hi : i < 3) (hj : j < 3) (v : Cell) : cellN (bset b i j v) i j = v := by
  obtain ⟨hlen, hrow⟩ := hs
  have hib : i < b.length := by omega
  have hrl : b[i].length = 3 := hrow _ (List.getElem_mem hib)
  have hjb : j < b[i].length := by omega
  unfold bset
  rw [List.getElem?_eq_getElem hib]
  simp [cellN, List.getElem?_set_self (by simpa using hib),
        List.getElem?_set_self (by simpa using hjb)]

theorem cellN_bset_ne {b : Board} {i j : Nat} (v : Cell) {i2 j2 : Nat}
    (h : (i2, j2) ≠ (i, j)) : cellN (bset b i j v) i2 j2 = cellN b i2 j2 := by
  unfold bset
  rcases hb : b[i]? with _ | row
  · rfl
  · have hib : i < b.length := (List.getElem?_eq_some.mp hb).1
    by_cases hii : i2 = i
    · subst hii
      have hj2 : j ≠ j2 := by
        intro h2
        exact h (by rw [h2])
      unfold cellN
      rw [List.getElem?_set_self (by simpa using hib), hb]
      simp only [Option.some_bind]
      rw [List.getElem?_set_ne hj2]
    · unfold cellN
      rw [List.getElem?_set_ne fun h2 => hii h2.symm]

/-! ### Counting lemmas for `occupied` -/

theorem countP_set_add {α : Type} (l : List α) (k : Nat) (hk : k < l.length)
    (a : α) (p : α → Bool) :
    (l.set k a).countP p + (if p l[k] then 1 else 0)
      = l.countP p + (if p a then 1 else 0) := by
  induction l generalizing k with
  | nil => simp at hk
  | cons x xs ih =>
    cases k with
    | zero => simp [List.countP_cons]; omega
    | succ k2 =>
      have hk2 : k2 < xs.length := by simpa using hk
      have := ih k2 hk2
      simp only [List.set_cons_succ, List.countP_cons, List.getElem_cons_succ]
      omega

theorem sum_set_add (l : List Nat) (k : Nat) (hk : k < l.length) (x : Nat) :
    (l.set k x).sum + l[k] = l.sum + x := by
  induction l generalizing k with
  | nil => simp at hk
  | cons a as ih =>
    cases k with
    | zero => simp [List.sum_cons]; omega
    | succ k2 =>
      have hk2 : k2 < as.length := by simpa using hk
      have := ih k2 hk2
      simp only [List.set_cons_succ, List.sum_cons, List.getElem_cons_succ]
      omega

theorem occupied_bset {b : Board} (hs : shape3 b) {i j : Nat}
    (hi : i < 3) (hj : j < 3) (v : Cell) :
    occupied (bset b i j v) + (if (cellN b i j).isSome then 1 else 0)
      = occupied b + (if v.isSome then 1 else 0) := by
  obtain ⟨hlen, hrow⟩ := hs
  have hib : i < b.length := by omega
  have hrl : b[i].length = 3 := hrow _ (List.getElem_mem hib)
  have hjb : j < b[i].length := by omega
  have hcell : cellN b i j = b[i][j] := cellN_of_lt hib hjb
  unfold bset
  rw [List.getElem?_eq_getElem hib]
  unfold occupied
  rw [List.map_set]
  have hmap : i < (b.map fun row => row.countP fun cl => cl.isSome).length := by
    simpa using hib
  have hsum := sum_set_add (b.map fun row => row.countP fun cl => cl.isSome) i
    hmap ((b[i].set j v).countP fun cl => cl.isSome)
  have hcnt := countP_set_add b[i] j hjb v (fun cl => cl.isSome)
  simp only [List.getElem_map] at hsum
  rw [hcell]
  omega

theorem occupied_bset_place {b : Board} (hs : shape3 b) {i j : Nat}
    (hi : i < 3) (hj : j < 3) (hempty : cellN b i j = none) (m : Mark) :
    occupied (bset b i j (some m)) = occupied b + 1 := by
  have := occupied_bset hs hi hj (some m)
  rw [hempty] at this
  simp at this
  omega

theorem occupied_bset_clear {b : Board} (hs : shape3 b) {i j : Nat}
    (hi : i < 3) (hj : j < 3) (hocc : (cellN b i j).isSome = true) :
    occupied (bset b i j none) + 1 = occupied b := by
  have := occupied_bset hs hi hj none
  rw [hocc] at this
  simp at this
  omega

/-! ### Full-board lemmas -/

theorem is_board_full_iff (b : Board) :
    is_board_full b = true ↔ ∀ row ∈ b, ∀ cl ∈ row, cl.isSome = true := by
  simp [is_board_full, List.all_eq_true]

theorem occupied_of_full {b : Board} (hs : shape3 b)
    (hf : is_board_full b = true) : occupied b = 9 := by
  obtain ⟨hlen, hrow⟩ := hs
  obtain ⟨r0, r1, r2, rfl⟩ := List.length_eq_three.mp hlen
  rw [is_board_full_iff] at hf
  have h0 : r0.countP (fun cl => cl.isSome) = r0.length :=
    List.countP_eq_length.mpr fun a ha => hf r0 (by simp) a ha
  have h1 : r1.countP (fun cl => cl.isSome) = r1.length :=
    List.countP_eq_length.mpr fun a ha => hf r1 (by simp) a ha
  have h2 : r2.countP (fun cl => cl.isSome) = r2.length :=
    List.countP_eq_length.mpr fun a ha => hf r2 (by simp) a ha
  have l0 : r0.length = 3 := hrow r0 (by simp)
  have l1 : r1.length = 3 := hrow r1 (by simp)
  have l2 : r2.length = 3 := hrow r2 (by simp)
  simp [occupied, h0, h1, h2, l0, l1, l2]

/-! ### A pairwise counting helper -/

theorem countP_le_one_of_pairwise {α : Type} {l : List α} {p : α → Bool}
    (h : l.Pairwise fun a b => ¬(p a = true ∧ p b = true)) :
    l.countP p ≤ 1 := by
  induction l with
  | nil => simp
  | cons x xs ih =>
    rw [List.pairwise_cons] at h
    rw [List.countP_cons]
    by_cases hx : p x = true
    · have hz : xs.countP p = 0 :=
        List.countP_eq_zero.mpr fun a ha hpa => (h.1 a ha) ⟨hx, hpa⟩
      simp [hz, hx]
    · have := ih h.2
      rw [if_neg hx]
      omega

/-! ### Unfolding lemmas for `make_move` -/

theorem make_move_over {s : GameState} (h : s.game_over = true)
    (r c : Int) (t : Nat) : make_move s r c t = some s := by
  simp [make_move, h]

theorem make_move_occupied {s : GameState} (hgo : s.game_over = false)
    {r c : Int} {cl : Cell} (hget : getCell s.board r c = some cl)
    (hocc : cl.isSome = true) (t : Nat) : make_move s r c t = some s := by
  simp [make_move, hgo, hget, hocc]

theorem make_move_idx_err {s : GameState} (hgo : s.game_over = false)
    {r c : Int} (hget : getCell s.board r c = none) (t : Nat) :
    make_move s r c t = none := by
  simp [make_move, hgo, hget]

theorem make_move_success {s : GameState} (hgo : s.game_over = false)
    {r c : Int} (hget : getCell s.board r c = some none) (t : Nat) :
    make_move s r c t =
      (setCell s.board r c (some s.current_player)).bind fun b1 =>
        (vanish s.vanish_after b1
            (s.move_history ++ [(r, c, s.current_player, t)])).map fun p =>
          finish s p.1 p.2 := by
  simp [make_move, hgo, hget]

theorem vanish_le {limit : Nat} {b : Board} {h : List Move}
    (hle : ¬h.length > limit * 2) : vanish limit b h = some (b, h) := by
  simp [vanish, hle]

theorem vanish_gt {limit : Nat} {b : Board} {h : List Move} {m0 : Move}
    {rest : List Move} (hgt : h.length > limit * 2) (heq : h = m0 :: rest)
    {b2 : Board} (hset : setCell b (mrow m0) (mcol m0) none = some b2) :
    vanish limit b h = some (b2, rest) := by
  subst heq
  unfold vanish
  rw [if_pos hgt]
  simp [hset]

theorem finish_win {s : GameState} {b2 : Board} {h2 : List Move} {w : Mark}
    (hw : check_winner b2 = some w) :
    finish s b2 h2 =
      { s with board := b2, move_history := h2
               winner := some (Winner.mark w), game_over := true } := by
  unfold finish
  rw [hw]

theorem finish_tie {s : GameState} {b2 : Board} {h2 : List Move}
    (hw : check_winner b2 = none) (hf : is_board_full b2 = true) :
    finish s b2 h2 =
      { s with board := b2, move_history := h2
               winner := some Winner.tie, game_over := true } := by
  unfold finish
  rw [hw]
  simp [hf]

theorem finish_next {s : GameState} {b2 : Board} {h2 : List Move}
    (hw : check_winner b2 = none) (hf : is_board_full b2 = false) :
    finish s b2 h2 =
      { s with board := b2, move_history := h2
               current_player := other s.current_player } := by
  unfold finish
  rw [hw]
  simp [hf]

theorem finish_board (s : GameState) (b2 : Board) (h2 : List Move) :
    (finish s b2 h2).board = b2 := by
  unfold finish
  split
  · rfl
  · split <;> rfl

theorem finish_history (s : GameState) (b2 : Board) (h2 : List Move) :
    (finish s b2 h2).move_history = h2 := by
  unfold finish
  split
  · rfl
  · split <;> rfl

theorem finish_vanish_after (s : GameState) (b2 : Board) (h2 : List Move) :
    (finish s b2 h2).vanish_after = s.vanish_after := by
  unfold finish
  split
  · rfl
  · split <;> rfl

/-! ### The reachability invariant -/

/-- The invariant maintained by `reset_game` and `make_move`: the board is
3×3; the history respects the vanish bound; every history entry points
(through Python index wrapping) at a distinct cell holding its player's
mark; every occupied cell is pointed at by a history entry; the number of
occupied cells equals the history length; and the `game_over`/`winner`
fields are consistent. -/
structure Inv (s : GameState) : Prop where
  shape : shape3 s.board
  hist_le : s.move_history.length ≤ s.vanish_after * 2
  hist_cells : ∀ m ∈ s.move_history, ∃ i j, pyIdx 3 (mrow m) = some i ∧
    pyIdx 3 (mcol m) = some j ∧ cellN s.board i j = some (mplayer m)
  hist_distinct : s.move_history.Pairwise fun m m2 => coords m ≠ coords m2
  cells_hist : ∀ i j, i < 3 → j < 3 → (cellN s.board i j).isSome = true →
    ∃ m ∈ s.move_history, pyIdx 3 (mrow m) = some i ∧ pyIdx 3 (mcol m) = some j
  occ_eq : occupied s.board = s.move_history.length
  over_winner : s.game_over = true → s.winner.isSome = true
  tie_full : s.winner = some Winner.tie → is_board_full s.board = true
  not_over_winner : s.game_over = false → s.winner = none

theorem cellN_empty (i j : Nat) :
    cellN (List.replicate 3 (List.replicate 3 (none : Cell))) i j = none := by
  unfold cellN
  rw [List.getElem?_replicate]
  by_cases hi : i < 3
  · rw [if_pos hi]
    simp only [Option.some_bind]
    rw [List.getElem?_replicate]
    by_cases hj : j < 3
    · rw [if_pos hj]
      rfl
    · rw [if_neg hj]
      rfl
  · rw [if_neg hi]
    rfl

theorem inv_reset (s : GameState) : Inv (reset_game s) where
  shape := by
    constructor
    · rfl
    · intro row hrow
      rw [List.eq_of_mem_replicate hrow]
      rfl
  hist_le := by simp [reset_game]
  hist_cells := by
    intro m hm
    simp [reset_game] at hm
  hist_distinct := by simp [reset_game]
  cells_hist := by
    intro i j hi hj hocc
    rw [show (reset_game s).board
          = List.replicate 3 (List.replicate 3 none) from rfl,
        cellN_empty] at hocc
    simp at hocc
  occ_eq := by rfl
  over_winner := by
    intro h
    simp [reset_game] at h
  tie_full := by
    intro h
    simp [reset_game] at h
  not_over_winner := fun _ => rfl

theorem place_facts {s : GameState} (hinv : Inv s) {r c : Int} {i j : Nat}
    (hi : pyIdx 3 r = some i) (hj : pyIdx 3 c = some j)
    (hempty : cellN s.board i j = none) (t : Nat) {b1 : Board}
    {h1 : List Move}
    (hb1 : b1 = bset s.board i j (some s.current_player))
    (hh1 : h1 = s.move_history ++ [(r, c, s.current_player, t)]) :
    shape3 b1 ∧
    (∀ m ∈ h1, ∃ i2 j2, pyIdx 3 (mrow m) = some i2 ∧
       pyIdx 3 (mcol m) = some j2 ∧ cellN b1 i2 j2 = some (mplayer m)) ∧
    h1.Pairwise (fun m m2 => coords m ≠ coords m2) ∧
    (∀ i2 j2, i2 < 3 → j2 < 3 → (cellN b1 i2 j2).isSome = true →
       ∃ m ∈ h1, pyIdx 3 (mrow m) = some i2 ∧ pyIdx 3 (mcol m) = some j2) ∧
    occupied b1 = h1.length := by
  subst hb1
  subst hh1
  have hi3 : i < 3 := pyIdx_lt hi
  have hj3 : j < 3 := pyIdx_lt hj
  have hold : ∀ m ∈ s.move_history, coords m ≠ (some i, some j) := by
    intro m hm hco
    obtain ⟨i2, j2, hi2, hj2, hcell⟩ := hinv.hist_cells m hm
    unfold coords at hco
    rw [hi2, hj2] at hco
    have hii : i2 = i := by
      have := congrArg Prod.fst hco
      simpa using this
    have hjj : j2 = j := by
      have := congrArg Prod.snd hco
      simpa using this
    rw [hii, hjj, hempty] at hcell
    cases hcell
  refine ⟨shape3_bset hinv.shape i j _, ?_, ?_, ?_, ?_⟩
  · intro m hm
    rcases List.mem_append.mp hm with hm | hm
    · obtain ⟨i2, j2, hi2, hj2, hcell⟩ := hinv.hist_cells m hm
      refine ⟨i2, j2, hi2, hj2, ?_⟩
      rw [cellN_bset_ne _ ?_]
      · exact hcell
      · intro hco
        apply hold m hm
        unfold coords
        rw [hi2, hj2]
        have e1 : i2 = i := congrArg Prod.fst hco
        have e2 : j2 = j := congrArg Prod.snd hco
        rw [e1, e2]
    · have hm2 : m = (r, c, s.current_player, t) := by simpa using hm
      subst hm2
      refine ⟨i, j, hi, hj, ?_⟩
      rw [cellN_bset_self hinv.shape hi3 hj3]
      rfl
  · rw [List.pairwise_append]
    refine ⟨hinv.hist_distinct, by simp, ?_⟩
    intro m hm m2 hm2
    have hm2e : m2 = (r, c, s.current_player, t) := by simpa using hm2
    subst hm2e
    have hc2 : coords (r, c, s.current_player, t) = (some i, some j) := by
      unfold coords mrow mcol
      rw [hi, hj]
    rw [hc2]
    exact hold m hm
  · intro i2 j2 hi2 hj2 hocc
    by_cases hco : (i2, j2) = (i, j)
    · refine ⟨(r, c, s.current_player, t), by simp, ?_, ?_⟩
      · have e1 : i2 = i := congrArg Prod.fst hco
        rw [show mrow (r, c, s.current_player, t) = r from rfl, hi, e1]
      · have e2 : j2 = j := congrArg Prod.snd hco
        rw [show mcol (r, c, s.current_player, t) = c from rfl, hj, e2]
    · rw [cellN_bset_ne _ hco] at hocc
      obtain ⟨m, hm, hmi, hmj⟩ := hinv.cells_hist i2 j2 hi2 hj2 hocc
      exact ⟨m, List.mem_append.mpr (Or.inl hm), hmi, hmj⟩
  · rw [occupied_bset_place hinv.shape hi3 hj3 hempty, List.length_append,
        hinv.occ_eq]
    rfl

theorem evict_facts {b1 : Board} {h1 : List Move} {m0 : Move}
    {rest : List Move} (heq : h1 = m0 :: rest) (hs : shape3 b1)
    (hcells : ∀ m ∈ h1, ∃ i j, pyIdx 3 (mrow m) = some i ∧
       pyIdx 3 (mcol m) = some j ∧ cellN b1 i j = some (mplayer m))
    (hdist : h1.Pairwise fun m m2 => coords m ≠ coords m2)
    (hcov : ∀ i j, i < 3 → j < 3 → (cellN b1 i j).isSome = true →
       ∃ m ∈ h1, pyIdx 3 (mrow m) = some i ∧ pyIdx 3 (mcol m) = some j)
    (hocc : occupied b1 = h1.length) :
    ∃ i0 j0, pyIdx 3 (mrow m0) = some i0 ∧ pyIdx 3 (mcol m0) = some j0 ∧
      setCell b1 (mrow m0) (mcol m0) none = some (bset b1 i0 j0 none) ∧
      shape3 (bset b1 i0 j0 none) ∧
      (∀ m ∈ rest, ∃ i j, pyIdx 3 (mrow m) = some i ∧
         pyIdx 3 (mcol m) = some j ∧
         cellN (bset b1 i0 j0 none) i j = some (mplayer m)) ∧
      rest.Pairwise (fun m m2 => coords m ≠ coords m2) ∧
      (∀ i j, i < 3 → j < 3 →
         (cellN (bset b1 i0 j0 none) i j).isSome = true →
         ∃ m ∈ rest, pyIdx 3 (mrow m) = some i ∧ pyIdx 3 (mcol m) = some j) ∧
      occupied (bset b1 i0 j0 none) = rest.length := by
  subst heq
  obtain ⟨i0, j0, hi0, hj0, hcell0⟩ :=
    hcells m0 (List.mem_cons_self m0 rest)
  have hi03 : i0 < 3 := pyIdx_lt hi0
  have hj03 : j0 < 3 := pyIdx_lt hj0
  have hdist0 : ∀ m ∈ rest, coords m0 ≠ coords m :=
    (List.pairwise_cons.mp hdist).1
  have hc0 : coords m0 = (some i0, some j0) := by
    unfold coords
    rw [hi0, hj0]
  refine ⟨i0, j0, hi0, hj0, setCell_eq hs hi0 hj0 none,
    shape3_bset hs i0 j0 none, ?_, (List.pairwise_cons.mp hdist).2, ?_, ?_⟩
  · intro m hm
    obtain ⟨i, j, hi, hj, hcell⟩ := hcells m (List.mem_cons_of_mem m0 hm)
    refine ⟨i, j, hi, hj, ?_⟩
    rw [cellN_bset_ne _ ?_]
    · exact hcell
    · intro hco
      apply hdist0 m hm
      rw [hc0]
      unfold coords
      rw [hi, hj]
      have e1 : i = i0 := congrArg Prod.fst hco
      have e2 : j = j0 := congrArg Prod.snd hco
      rw [e1, e2]
  · intro i j hi3 hj3 hocc2
    by_cases hco : (i, j) = (i0, j0)
    · exfalso
      have e1 : i = i0 := congrArg Prod.fst hco
      have e2 : j = j0 := congrArg Prod.snd hco
      rw [e1, e2, cellN_bset_self hs hi03 hj03] at hocc2
      simp at hocc2
    · rw [cellN_bset_ne _ hco] at hocc2
      obtain ⟨m, hm, hmi, hmj⟩ := hcov i j hi3 hj3 hocc2
      rcases List.mem_cons.mp hm with hm0 | hm2
      · exfalso
        apply hco
        subst hm0
        rw [hmi] at hi0
        rw [hmj] at hj0
        have e1 : i0 = i := by
          injection hi0 with e
          exact e.symm
        have e2 : j0 = j := by
          injection hj0 with e
          exact e.symm
        rw [e1, e2]
      · exact ⟨m, hm2, hmi, hmj⟩
  · have hc : (cellN b1 i0 j0).isSome = true := by
      rw [hcell0]
      rfl
    have := occupied_bset_clear hs hi03 hj03 hc
    have hlen : (m0 :: rest).length = rest.length + 1 := by
      simp
    omega

theorem inv_finish {s : GameState} (hgo : s.game_over = false)
    {b2 : Board} {h2 : List Move} (hshape : shape3 b2)
    (hlen2 : h2.length ≤ s.vanish_after * 2)
    (hcells : ∀ m ∈ h2, ∃ i j, pyIdx 3 (mrow m) = some i ∧
       pyIdx 3 (mcol m) = some j ∧ cellN b2 i j = some (mplayer m))
    (hdist : h2.Pairwise fun m m2 => coords m ≠ coords m2)
    (hcov : ∀ i j, i < 3 → j < 3 → (cellN b2 i j).isSome = true →
       ∃ m ∈ h2, pyIdx 3 (mrow m) = some i ∧ pyIdx 3 (mcol m) = some j)
    (hocc : occupied b2 = h2.length)
    (hnw : s.winner = none) :
    Inv (finish s b2 h2) := by
  rcases hw : check_winner b2 with _ | w
  · by_cases hf : is_board_full b2 = true
    · rw [finish_tie hw hf]
      exact ⟨hshape, hlen2, hcells, hdist, hcov, hocc,
        fun _ => rfl, fun _ => hf, fun h => (by cases h)⟩
    · have hf2 : is_board_full b2 = false := by
        cases hfb : is_board_full b2
        · rfl
        · exact absurd hfb hf
      rw [finish_next hw hf2]
      refine ⟨hshape, hlen2, hcells, hdist, hcov, hocc, ?_, ?_, fun _ => hnw⟩
      · intro h
        have h3 : s.game_over = true := h
        rw [hgo] at h3
        cases h3
      · intro h
        have h3 : s.winner = some Winner.tie := h
        rw [hnw] at h3
        cases h3
  · rw [finish_win hw]
    exact ⟨hshape, hlen2, hcells, hdist, hcov, hocc,
      fun _ => rfl, fun h => (by cases h), fun h => (by cases h)⟩

theorem inv_step {s s2 : GameState} {r c : Int} {t : Nat} (hinv : Inv s)
    (hmk : make_move s r c t = some s2) :
    Inv s2 ∧ s2.vanish_after = s.vanish_after := by
  rcases hgo : s.game_over with _ | _
  · rcases hget : getCell s.board r c with _ | cl
    · rw [make_move_idx_err hgo hget] at hmk
      cases hmk
    · rcases cl with _ | mk
      · -- the success path
        have hij : ∃ i j, pyIdx 3 r = some i ∧ pyIdx 3 c = some j := by
          rcases hr : pyIdx 3 r with _ | i
          · rw [getCell_none hinv.shape (Or.inl hr)] at hget
            cases hget
          · rcases hc : pyIdx 3 c with _ | j
            · rw [getCell_none hinv.shape (Or.inr hc)] at hget
              cases hget
            · exact ⟨i, j, rfl, rfl⟩
        obtain ⟨i, j, hi, hj⟩ := hij
        have hempty : cellN s.board i j = none := by
          have h2 := getCell_eq hinv.shape hi hj
          rw [hget] at h2
          injection h2 with h3
          exact h3.symm
        obtain ⟨hshape1, hcells1, hdist1, hcov1, hocc1⟩ :=
          place_facts hinv hi hj hempty t rfl rfl
        rw [make_move_success hgo hget, setCell_eq hinv.shape hi hj] at hmk
        simp only [Option.some_bind] at hmk
        by_cases hlen : (s.move_history
            ++ [(r, c, s.current_player, t)]).length > s.vanish_after * 2
        · rcases he : s.move_history ++ [(r, c, s.current_player, t)] with
            _ | ⟨m0, rest⟩
          · exact absurd he (by simp)
          · obtain ⟨i0, j0, hi0, hj0, hset0, hshape2, hcells2, hdist2,
              hcov2, hocc2⟩ := evict_facts he hshape1 hcells1 hdist1
                hcov1 hocc1
            rw [vanish_gt (he ▸ hlen) he hset0] at hmk
            simp only [Option.map_some'] at hmk
            injection hmk with hmk
            subst hmk
            have hrest : rest.length ≤ s.vanish_after * 2 := by
              have h3 : (s.move_history
                  ++ [(r, c, s.current_player, t)]).length
                  = s.move_history.length + 1 := by simp
              have h4 : (m0 :: rest).length = rest.length + 1 := by simp
              rw [he] at h3
              have := hinv.hist_le
              omega
            refine ⟨inv_finish hgo hshape2 hrest hcells2 hdist2 hcov2 hocc2
              (hinv.not_over_winner hgo), ?_⟩
            rw [finish_vanish_after]
        · rw [vanish_le hlen] at hmk
          simp only [Option.map_some'] at hmk
          injection hmk with hmk
          subst hmk
          refine ⟨inv_finish hgo hshape1 (by omega) hcells1 hdist1 hcov1
            hocc1 (hinv.not_over_winner hgo), ?_⟩
          rw [finish_vanish_after]
      · rw [make_move_occupied hgo hget rfl t] at hmk
        injection hmk with hmk
        subst hmk
        exact ⟨hinv, rfl⟩
  · rw [make_move_over hgo r c t] at hmk
    injection hmk with hmk
    subst hmk
    exact ⟨hinv, rfl⟩

theorem reachable_inv {limit : Nat} {s : GameState}
    (h : Reachable limit s) : Inv s ∧ s.vanish_after = limit := by
  induction h with
  | base s0 => exact ⟨inv_reset _, rfl⟩
  | step s0 s2 r c t hr hmk ih =>
    obtain ⟨hinv, hva⟩ := ih
    obtain ⟨hinv2, hva2⟩ := inv_step hinv hmk
    exact ⟨hinv2, hva2.trans hva⟩

/-! ### `check_winner` agrees with the spec's ordered-lines description -/

theorem same3_cases (x y z : Cell) :
    same3 x y z = (match x, y, z with
      | some a, some b2, some c2 =>
          if a = b2 ∧ b2 = c2 then some a else none
      | _, _, _ => none) := by
  rcases x with _ | a
  · rcases y with _ | b2
    · rcases z with _ | c2 <;> simp [same3]
    · rcases z with _ | c2 <;> simp [same3]
  · rcases y with _ | b2
    · rcases z with _ | c2 <;> simp [same3]
    · rcases z with _ | c2
      · simp [same3]
      · simp only [same3, Option.some.injEq]
        by_cases h : a = b2 ∧ b2 = c2
        · obtain ⟨h1, h2⟩ := h
          subst h1
          subst h2
          simp
        · rw [if_neg h, if_neg h]

theorem line_mark_eq (b : Board) (p1 p2 p3 : Nat × Nat) :
    line_mark b (p1, p2, p3)
      = same3 (cellN b p1.1 p1.2) (cellN b p2.1 p2.2) (cellN b p3.1 p3.2) :=
  (same3_cases _ _ _).symm

theorem check_winner_eq_spec (b : Board) :
    check_winner b = check_winner_spec b := by
  unfold check_winner check_winner_spec winning_lines
  simp only [List.findSome?_cons, List.findSome?_nil, line_mark_eq]
  rcases same3 (cellN b 0 0) (cellN b 0 1) (cellN b 0 2) with _ | w1 <;>
    rcases same3 (cellN b 1 0) (cellN b 1 1) (cellN b 1 2) with _ | w2 <;>
    rcases same3 (cellN b 2 0) (cellN b 2 1) (cellN b 2 2) with _ | w3 <;>
    rcases same3 (cellN b 0 0) (cellN b 1 0) (cellN b 2 0) with _ | w4 <;>
    rcases same3 (cellN b 0 1) (cellN b 1 1) (cellN b 2 1) with _ | w5 <;>
    rcases same3 (cellN b 0 2) (cellN b 1 2) (cellN b 2 2) with _ | w6 <;>
    rcases same3 (cellN b 0 0) (cellN b 1 1) (cellN b 2 2) with _ | w7 <;>
    rcases same3 (cellN b 0 2) (cellN b 1 1) (cellN b 2 0) with _ | w8 <;>
    rfl

/-! ### Helpers for the claim theorems -/

theorem status_of_not_over {s : GameState} (h : s.game_over = false) :
    status s = Status.inProgress := by
  unfold status
  rw [h]
  simp

theorem other_ne (m : Mark) : other m ≠ m := by
  cases m <;> simp [other]

/-- Dissection of a successful `make_move` into its placement, eviction
and finishing stages. -/
theorem make_move_success_decomp {s s2 : GameState} {r c : Int} {t : Nat}
    (hgo : s.game_over = false) (hget : getCell s.board r c = some none)
    (hmk : make_move s r c t = some s2) :
    ∃ b1 b2 h2, setCell s.board r c (some s.current_player) = some b1 ∧
      vanish s.vanish_after b1
          (s.move_history ++ [(r, c, s.current_player, t)])
        = some (b2, h2) ∧
      s2 = finish s b2 h2 := by
  rw [make_move_success hgo hget] at hmk
  rcases hset : setCell s.board r c (some s.current_player) with _ | b1
  · rw [hset] at hmk
    cases hmk
  · rw [hset] at hmk
    simp only [Option.some_bind] at hmk
    rcases hv : vanish s.vanish_after b1
        (s.move_history ++ [(r, c, s.current_player, t)]) with _ | p
    · rw [hv] at hmk
      cases hmk
    · rw [hv] at hmk
      simp only [Option.map_some'] at hmk
      injection hmk with hmk
      exact ⟨b1, p.1, p.2, rfl, by rw [hv], hmk.symm⟩

/-! ### Claim theorems -/

/-- C8: for every vanishLimit, `newGame(vanishLimit)` produces a fresh
state with an empty 3×3 board (all cells empty), an empty move history,
current player X, and status in-progress, discarding any prior game
state; it is total, so it has no error conditions. -/
theorem C8_new_game (limit : Nat) (s : GameState) :
    new_game limit s =
      { board := List.replicate 3 (List.replicate 3 none)
        move_history := []
        current_player := Mark.X
        game_over := false
        winner := none
        vanish_after := limit } ∧
    status (new_game limit s) = Status.inProgress ∧
    (∀ i j, cellN (new_game limit s).board i j = none) ∧
    ∀ s0 : GameState, new_game limit s0 = new_game limit s := by
  refine ⟨rfl, rfl, ?_, fun s0 => rfl⟩
  intro i j
  exact cellN_empty i j

/-- C2 (counterexample): on the fresh state, `applyMove(3, 0)` raises
`IndexError` (modelled `none`) instead of being a silent no-op, and
`applyMove(-1, 0)` is not a no-op either — Python wraps the negative
index and the move is applied at row 2. -/
theorem C2_range_counterexample :
    make_move (reset_game initial_state) 3 0 0 = none ∧
    make_move (reset_game initial_state) (-1) 0 0
      ≠ some (reset_game initial_state) := by
  constructor
  · decide
  · decide

/-- C2 (amended): `make_move` performs no range validation.  When the
game is over, any coordinates — in range or not — give a silent no-op,
because the short-circuited `or` never examines them.  When the game is
in progress, a row or column outside Python's valid index range
`[-3, 2]` raises `IndexError` (modelled `none`) rather than being a
no-op, and a negative index in `[-3, -1]` is read by Python's negative
indexing as index + 3. -/
theorem C2_amended_no_range_validation (s : GameState) (r c : Int)
    (t : Nat) :
    (s.game_over = true → make_move s r c t = some s) ∧
    (s.game_over = false → shape3 s.board →
       (pyIdx 3 r = none ∨ pyIdx 3 c = none) → make_move s r c t = none) ∧
    (shape3 s.board → -3 ≤ r → r < 0 →
       getCell s.board r c = getCell s.board (r + 3) c) := by
  refine ⟨fun h => make_move_over h r c t, ?_, ?_⟩
  · intro hgo hs h
    exact make_move_idx_err hgo (getCell_none hs h) t
  · intro hs h0 h1
    obtain ⟨hlen, _⟩ := hs
    have e1 : pyIdx 3 r = some (r + 3).toNat :=
      pyIdx_of_neg (by omega) h1
    have e2 : pyIdx 3 (r + 3) = some (r + 3).toNat :=
      pyIdx_of_nonneg (by omega) (by omega)
    unfold getCell pyGet
    rw [hlen, e1, e2]

/-- C4: once the status is won or tied, `make_move` returns the state
unchanged for any coordinates; and a `make_move` on an occupied cell
within `[0,2] × [0,2]` returns the state unchanged (no history append,
no player switch). -/
theorem C4_terminal_and_occupied_noop (s : GameState) (r c : Int)
    (t : Nat) :
    (((∃ m, status s = Status.won m) ∨ status s = Status.tied) →
       make_move s r c t = some s) ∧
    (shape3 s.board → 0 ≤ r → r < 3 → 0 ≤ c → c < 3 →
       (cellN s.board r.toNat c.toNat).isSome = true →
       make_move s r c t = some s) := by
  constructor
  · intro h
    have hgo : s.game_over = true := by
      rcases hb : s.game_over with _ | _
      · rw [status_of_not_over hb] at h
        rcases h with ⟨m, hm⟩ | hm <;> cases hm
      · rfl
    exact make_move_over hgo r c t
  · intro hs h0r hr3 h0c hc3 hocc
    rcases hb : s.game_over with _ | _
    · have hi : pyIdx 3 r = some r.toNat :=
        pyIdx_of_nonneg h0r (by omega)
      have hj : pyIdx 3 c = some c.toNat :=
        pyIdx_of_nonneg h0c (by omega)
      exact make_move_occupied hb (getCell_eq hs hi hj) hocc t
    · exact make_move_over hb r c t

/-- C3: `check_winner` checks the 8 winning lines in the fixed order
row0, row1, row2, col0, col1, col2, main diagonal, anti-diagonal, a line
winning iff its three cells are non-empty and identical; a successful
`make_move` evaluates it on the post-eviction board (`s2.board` is
exactly the board produced by placement plus `vanish`), and if it
returns a winner, that mark is stored, the status becomes won(mark) and
the game becomes terminal — no hypothesis about remaining empty cells
is needed. -/
theorem C3_win_check {s s2 : GameState} {r c : Int} {t : Nat}
    (hgo : s.game_over = false) (hcell : getCell s.board r c = some none)
    (hmk : make_move s r c t = some s2) :
    (∀ b, check_winner b = check_winner_spec b) ∧
    (∃ b1, setCell s.board r c (some s.current_player) = some b1 ∧
       vanish s.vanish_after b1
           (s.move_history ++ [(r, c, s.current_player, t)])
         = some (s2.board, s2.move_history)) ∧
    ∀ w, check_winner s2.board = some w →
      s2.winner = some (Winner.mark w) ∧ s2.game_over = true ∧
      status s2 = Status.won w := by
  obtain ⟨b1, b2, h2, hset, hv, hfin⟩ :=
    make_move_success_decomp hgo hcell hmk
  refine ⟨check_winner_eq_spec, ⟨b1, hset, ?_⟩, ?_⟩
  · rw [hfin, finish_board, finish_history]
    exact hv
  · intro w hw
    rw [hfin, finish_board] at hw
    rw [hfin, finish_win hw]
    exact ⟨rfl, rfl, rfl⟩

/-- C6: a successful `make_move` that produces neither a winner nor a
full board toggles the current player, so the player after the call
differs from the player before and equals the mark not just played; X
moves first in a fresh game. -/
theorem C6_alternation {s s2 : GameState} {r c : Int} {t : Nat}
    (hgo : s.game_over = false) (hcell : getCell s.board r c = some none)
    (hmk : make_move s r c t = some s2)
    (hw : check_winner s2.board = none)
    (hf : is_board_full s2.board = false) :
    s2.current_player = other s.current_player ∧
    s2.current_player ≠ s.current_player ∧
    status s2 = Status.inProgress ∧
    ∀ s0 : GameState, (reset_game s0).current_player = Mark.X := by
  obtain ⟨b1, b2, h2, hset, hv, hfin⟩ :=
    make_move_success_decomp hgo hcell hmk
  rw [hfin, finish_board] at hw hf
  rw [hfin, finish_next hw hf]
  refine ⟨rfl, other_ne s.current_player, ?_, fun s0 => rfl⟩
  exact status_of_not_over hgo

/-- C7: `is_board_full` returns true iff no cell of the board is empty;
and a successful `make_move` whose post-eviction board has no winner and
no empty cell sets the status to tied. -/
theorem C7_full_iff_and_tie :
    (∀ b : Board, is_board_full b = true ↔
       ∀ row ∈ b, ∀ cl ∈ row, cl.isSome = true) ∧
    ∀ s s2 : GameState, ∀ r c : Int, ∀ t : Nat, s.game_over = false →
      getCell s.board r c = some none → make_move s r c t = some s2 →
      check_winner s2.board = none → is_board_full s2.board = true →
      status s2 = Status.tied := by
  refine ⟨is_board_full_iff, ?_⟩
  intro s s2 r c t hgo hcell hmk hw hf
  obtain ⟨b1, b2, h2, hset, hv, hfin⟩ :=
    make_move_success_decomp hgo hcell hmk
  rw [hfin, finish_board] at hw hf
  rw [hfin, finish_tie hw hf]
  rfl

/-- C1: on a reachable state, a successful `make_move` whose appended
history exceeds `2 × vanish_after` performs exactly one eviction — the
oldest move (index 0 of the appended history) is removed and its board
cell cleared — while otherwise the history is only appended; in either
case the resulting history length never exceeds `2 × vanish_after`. -/
theorem C1_eviction_fifo {limit : Nat} {s s2 : GameState} {r c : Int}
    {t : Nat} (hreach : Reachable limit s) (hgo : s.game_over = false)
    (hcell : getCell s.board r c = some none)
    (hmk : make_move s r c t = some s2) :
    ((s.move_history ++ [(r, c, s.current_player, t)]).length
        > s.vanish_after * 2 →
      ∃ m0 rest b1,
        s.move_history ++ [(r, c, s.current_player, t)] = m0 :: rest ∧
        s2.move_history = rest ∧
        setCell s.board r c (some s.current_player) = some b1 ∧
        setCell b1 (mrow m0) (mcol m0) none = some s2.board) ∧
    ((s.move_history ++ [(r, c, s.current_player, t)]).length
        ≤ s.vanish_after * 2 →
      s2.move_history = s.move_history ++ [(r, c, s.current_player, t)] ∧
      setCell s.board r c (some s.current_player) = some s2.board) ∧
    s2.move_history.length ≤ s.vanish_after * 2 := by
  obtain ⟨hinv, hva⟩ := reachable_inv hreach
  have hij : ∃ i j, pyIdx 3 r = some i ∧ pyIdx 3 c = some j := by
    rcases hr : pyIdx 3 r with _ | i
    · rw [getCell_none hinv.shape (Or.inl hr)] at hcell
      cases hcell
    · rcases hc : pyIdx 3 c with _ | j
      · rw [getCell_none hinv.shape (Or.inr hc)] at hcell
        cases hcell
      · exact ⟨i, j, rfl, rfl⟩
  obtain ⟨i, j, hi, hj⟩ := hij
  have hempty : cellN s.board i j = none := by
    have h2 := getCell_eq hinv.shape hi hj
    rw [hcell] at h2
    injection h2 with h3
    exact h3.symm
  obtain ⟨hshape1, hcells1, hdist1, hcov1, hocc1⟩ :=
    place_facts hinv hi hj hempty t rfl rfl
  rw [make_move_success hgo hcell, setCell_eq hinv.shape hi hj] at hmk
  simp only [Option.some_bind] at hmk
  by_cases hlen : (s.move_history ++ [(r, c, s.current_player, t)]).length
      > s.vanish_after * 2
  · rcases he : s.move_history ++ [(r, c, s.current_player, t)] with
      _ | ⟨m0, rest⟩
    · exact absurd he (by simp)
    · obtain ⟨i0, j0, hi0, hj0, hset0, hshape2, hcells2, hdist2, hcov2,
        hocc2⟩ := evict_facts he hshape1 hcells1 hdist1 hcov1 hocc1
      rw [vanish_gt (he ▸ hlen) he hset0] at hmk
      simp only [Option.map_some'] at hmk
      injection hmk with hmk
      subst hmk
      have hrest : rest.length ≤ s.vanish_after * 2 := by
        have h3 : (s.move_history
            ++ [(r, c, s.current_player, t)]).length
            = s.move_history.length + 1 := by simp
        rw [he] at h3
        have h4 : (m0 :: rest).length = rest.length + 1 := by simp
        have := hinv.hist_le
        omega
      have hlen2 : (m0 :: rest).length > s.vanish_after * 2 := he ▸ hlen
      refine ⟨fun _ => ⟨m0, rest, bset s.board i j (some s.current_player),
        rfl, finish_history _ _ _, setCell_eq hinv.shape hi hj _, ?_⟩,
        fun hle => absurd hle (by omega), ?_⟩
      · rw [finish_board]
        exact hset0
      · rw [finish_history]
        exact hrest
  · rw [vanish_le hlen] at hmk
    simp only [Option.map_some'] at hmk
    injection hmk with hmk
    subst hmk
    refine ⟨fun hgt => absurd hgt hlen,
      fun _ => ⟨finish_history _ _ _, ?_⟩, ?_⟩
    · rw [finish_board]
      exact setCell_eq hinv.shape hi hj _
    · rw [finish_history]
      omega

/-- C5: along every sequence of successful `make_move` calls from
`newGame(limit)`, the number of non-empty board cells never exceeds
`2 × limit`. -/
theorem C5_occupancy_bound {limit : Nat} {s : GameState}
    (h : Reachable limit s) : occupied s.board ≤ limit * 2 := by
  obtain ⟨hinv, hva⟩ := reachable_inv h
  have h1 := hinv.occ_eq
  have h2 := hinv.hist_le
  omega

/-- C9 (implicit): on every reachable state the occupied cells are in
one-to-one correspondence with the history entries: each entry's
(Python-wrapped) coordinates hold that player's mark, no two entries
share a cell, and every occupied cell belongs to exactly one entry. -/
theorem C9_history_matches_board {limit : Nat} {s : GameState}
    (h : Reachable limit s) :
    (∀ m ∈ s.move_history, ∃ i j, pyIdx 3 (mrow m) = some i ∧
       pyIdx 3 (mcol m) = some j ∧ cellN s.board i j = some (mplayer m)) ∧
    (s.move_history.Pairwise fun m m2 => coords m ≠ coords m2) ∧
    ∀ i j, i < 3 → j < 3 → ∀ p, cellN s.board i j = some p →
      (∃ m ∈ s.move_history, pyIdx 3 (mrow m) = some i ∧
         pyIdx 3 (mcol m) = some j ∧ mplayer m = p) ∧
      s.move_history.countP (fun m =>
        decide (pyIdx 3 (mrow m) = some i ∧ pyIdx 3 (mcol m) = some j))
        = 1 := by
  obtain ⟨hinv, _⟩ := reachable_inv h
  refine ⟨hinv.hist_cells, hinv.hist_distinct, ?_⟩
  intro i j hi hj p hcellp
  have hocc : (cellN s.board i j).isSome = true := by
    rw [hcellp]
    rfl
  obtain ⟨m, hm, hmi, hmj⟩ := hinv.cells_hist i j hi hj hocc
  have hmp : mplayer m = p := by
    obtain ⟨i2, j2, hi2, hj2, hcell2⟩ := hinv.hist_cells m hm
    rw [hmi] at hi2
    rw [hmj] at hj2
    injection hi2 with e1
    injection hj2 with e2
    subst e1
    subst e2
    rw [hcellp] at hcell2
    injection hcell2 with e3
    exact e3.symm
  have hge : 0 < s.move_history.countP (fun m2 =>
      decide (pyIdx 3 (mrow m2) = some i ∧ pyIdx 3 (mcol m2) = some j)) := by
    rw [List.countP_pos_iff]
    exact ⟨m, hm, by rw [decide_eq_true_iff]; exact ⟨hmi, hmj⟩⟩
  have hle : s.move_history.countP (fun m2 =>
      decide (pyIdx 3 (mrow m2) = some i ∧ pyIdx 3 (mcol m2) = some j))
      ≤ 1 := by
    apply countP_le_one_of_pairwise
    refine List.Pairwise.imp ?_ hinv.hist_distinct
    intro m1 m2 hne hp
    exfalso
    apply hne
    have hp1 := of_decide_eq_true hp.1
    have hp2 := of_decide_eq_true hp.2
    unfold coords
    rw [hp1.1, hp1.2, hp2.1, hp2.2]
  exact ⟨⟨m, hm, hmi, hmj, hmp⟩, by omega⟩

/-- C10 (implicit): with vanishLimit 2, 3 or 4, the tied status is
unreachable — eviction caps the occupied cells at `2 × limit ≤ 8`, so
the board is never full and the tie branch never fires. -/
theorem C10_no_tie_for_small_limits {limit : Nat} {s : GameState}
    (h : Reachable limit s) (hl : limit = 2 ∨ limit = 3 ∨ limit = 4) :
    status s ≠ Status.tied := by
  obtain ⟨hinv, hva⟩ := reachable_inv h
  intro hst
  rcases hgo : s.game_over with _ | _
  · rw [status_of_not_over hgo] at hst
    cases hst
  · rcases hwv : s.winner with _ | w
    · have h2 := hinv.over_winner hgo
      rw [hwv] at h2
      cases h2
    · rcases w with m | _
      · unfold status at hst
        rw [hgo, hwv] at hst
        simp at hst
      · have hfull := hinv.tie_full hwv
        have h9 := occupied_of_full hinv.shape hfull
        have hocc := hinv.occ_eq
        have hhl := hinv.hist_le
        have hle8 : s.vanish_after * 2 ≤ 8 := by
          rcases hl with h2 | h2 | h2 <;> omega
        omega

theorem stepA1 : make_move wA0 0 0 1 = some wA1 := by decide

theorem stepA2 : make_move wA1 1 1 2 = some wA2 := by decide

theorem stepA3 : make_move wA2 0 1 3 = some wA3 := by decide

theorem stepA4 : make_move wA3 1 0 4 = some wA4 := by decide

theorem stepA5 : make_move wA4 2 2 5 = some wA5 := by decide

theorem reachA4 : Reachable 2 wA4 :=
  Reachable.step wA3 wA4 1 0 4
    (Reachable.step wA2 wA3 0 1 3
      (Reachable.step wA1 wA2 1 1 2
        (Reachable.step wA0 wA1 0 0 1
          (Reachable.base initial_state) stepA1) stepA2) stepA3) stepA4

theorem reachA5 : Reachable 2 wA5 :=
  Reachable.step wA4 wA5 2 2 5 reachA4 stepA5

theorem stepB5 : make_move wB4 0 2 5 = some wB5 := by decide

theorem stepC1 : make_move wC0 2 2 1 = some wC1 := by decide

/-! ### Witnesses -/

/-- C1 witness: the fifth move of the limit-2 run satisfies all the
hypotheses of the eviction theorem, and the resulting history length is
within the bound. -/
theorem C1_eviction_fifo_witness :
    wA5.move_history.length ≤ wA4.vanish_after * 2 :=
  (C1_eviction_fifo reachA4 (by decide) (by decide) stepA5).2.2

/-- C2 amended witness: the three branches at concrete inputs. -/
theorem C2_amended_no_range_validation_witness :
    make_move wB5 5 5 9 = some wB5 ∧
    make_move (reset_game initial_state) 3 0 0 = none ∧
    getCell (reset_game initial_state).board (-1) 0
      = getCell (reset_game initial_state).board (-1 + 3) 0 :=
  ⟨(C2_amended_no_range_validation wB5 5 5 9).1 (by decide),
   (C2_amended_no_range_validation (reset_game initial_state) 3 0 0).2.1
     (by decide) (by decide) (Or.inl (by decide)),
   (C2_amended_no_range_validation (reset_game initial_state) (-1) 0 0).2.2
     (by decide) (by decide) (by decide)⟩

/-- C3 witness: Scenario A — the fifth move of the limit-3 run completes
the top row and the state records the win for X. -/
theorem C3_win_check_witness :
    wB5.winner = some (Winner.mark Mark.X) ∧ wB5.game_over = true ∧
    status wB5 = Status.won Mark.X :=
  (C3_win_check (by decide) (by decide) stepB5).2.2 Mark.X (by decide)

/-- C4 witness: a move into the won state wB5 is a no-op, and a move on
the occupied cell (0,0) of the in-progress state wA1 is a no-op. -/
theorem C4_terminal_and_occupied_noop_witness :
    make_move wB5 1 2 9 = some wB5 ∧ make_move wA1 0 0 9 = some wA1 :=
  ⟨(C4_terminal_and_occupied_noop wB5 1 2 9).1 (Or.inl ⟨Mark.X, by decide⟩),
   (C4_terminal_and_occupied_noop wA1 0 0 9).2 (by decide) (by decide)
     (by decide) (by decide) (by decide) (by decide)⟩

/-- C5 witness: the occupancy bound at the post-eviction state wA5. -/
theorem C5_occupancy_bound_witness : occupied wA5.board ≤ 2 * 2 :=
  C5_occupancy_bound reachA5

/-- C6 witness: the first move of the limit-2 run hands the turn to O. -/
theorem C6_alternation_witness :
    wA1.current_player = other wA0.current_player ∧
    wA1.current_player ≠ wA0.current_player := by
  have h := C6_alternation (by decide) (by decide) stepA1 (by decide)
    (by decide)
  exact ⟨h.1, h.2.1⟩

/-- C7 witness: filling the last cell of the limit-5 drawn position
yields the tied status. -/
theorem C7_full_iff_and_tie_witness : status wC1 = Status.tied :=
  C7_full_iff_and_tie.2 wC0 wC1 2 2 1 (by decide) (by decide) stepC1
    (by decide) (by decide)

/-- C9 witness: the history of the reachable state wA5 occupies pairwise
distinct cells. -/
theorem C9_history_matches_board_witness :
    wA5.move_history.Pairwise fun m m2 => coords m ≠ coords m2 :=
  (C9_history_matches_board reachA5).2.1

/-- C10 witness: the reachable limit-2 state wA5 is not tied. -/
theorem C10_no_tie_for_small_limits_witness : status wA5 ≠ Status.tied :=
  C10_no_tie_for_small_limits reachA5 (Or.inl rfl)

end VTTT
